import Mathlib

/-!
Shallow embedding of the talktime-tally meeting speaking-time tracker.

The embedding models the five database tables (meetings, participants,
speaking_sessions, questions, subjects are modelled as needed by the claims)
as Lean structures, and the client operations as pure functions from a
database snapshot (plus client-local component state) to a new snapshot.
Timestamps are modelled as natural-number instants; row identities, generated
by the datastore in the source, are passed in as fresh-id parameters.

Source files embedded:
- src/src/components/ParticipantTimer.tsx (startSpeaking, stopSpeaking)
- ParticipantsNameList (toggleParticipantSpeaking, addParticipant,
  removeParticipant)
- CreateMeetingDialog (handleCreate)
- QuestionsPanel (submitQuestion)
- ActiveMeetingView (the localCounters synchronisation effect)
-/

namespace TalkTime

/-- Drop leading whitespace characters. -/
def dropLeadingWS : List Char → List Char
  | [] => []
  | c :: cs => if c.isWhitespace then dropLeadingWS cs else c :: cs

/-- The JS `String.prototype.trim()` used by every validation check in the
source: strip leading and trailing whitespace.  Defined structurally over
the character list so that concrete instances evaluate. -/
def strTrim (s : String) : String :=
  ⟨(dropLeadingWS (dropLeadingWS s.data.reverse).reverse)⟩

/-- A row of the `participants` table (schema: supabase migration). -/
structure Participant where
  id : Nat
  meeting_id : Nat
  name : String
  total_speaking_time : Nat
  speaking_sessions : Nat
  is_currently_speaking : Bool
deriving DecidableEq, Repr

/-- A row of the `speaking_sessions` table.  The declared schema has columns
`started_at`, `ended_at`, `duration`; the ParticipantsNameList code path
additionally addresses columns named `start_time` / `end_time`, so the row
model carries both column families exactly as the code writes them. -/
structure Session where
  id : Nat
  participant_id : Nat
  meeting_id : Nat
  started_at : Nat
  ended_at : Option Nat
  duration : Option Nat
  start_time : Option Nat
  end_time : Option Nat
deriving DecidableEq, Repr

/-- A row of the `meetings` table (`is_active` defaults to true on insert). -/
structure Meeting where
  id : Nat
  title : String
  created_by : Nat
  is_active : Bool
  ended_at : Option Nat
deriving DecidableEq, Repr

/-- A row of the `questions` table (`asker_name` null when anonymous). -/
structure Question where
  id : Nat
  meeting_id : Nat
  question : String
  asker_name : Option String
  is_answered : Bool
deriving DecidableEq, Repr

/-- The datastore: all rows of the tables the claims touch, in insertion
order (inserts append). -/
structure DB where
  meetings : List Meeting
  participants : List Participant
  sessions : List Session
  questions : List Question
deriving DecidableEq, Repr

/-- Client-local state of the ParticipantTimer component:
`currentSessionTime` is the ticked second counter, `activeSessionId` the
locally remembered open session row id. -/
structure TimerState where
  currentSessionTime : Nat
  activeSessionId : Option Nat
deriving DecidableEq, Repr

/-- ParticipantTimer.startSpeaking step 1: the broadcast
`update({ is_currently_speaking: false }).eq("meeting_id", meetingId)`. -/
def clearSpeakingInMeeting (meetingId : Nat) (ps : List Participant) :
    List Participant :=
  ps.map fun q =>
    if q.meeting_id = meetingId then { q with is_currently_speaking := false }
    else q

/-- ParticipantTimer.startSpeaking step 2 query: ids of the sessions with
`meeting_id = meetingId` and `ended_at` null. -/
def openSessionIds (meetingId : Nat) (ss : List Session) : List Nat :=
  (ss.filter fun s => s.meeting_id == meetingId && s.ended_at == none).map
    (fun s => s.id)

/-- ParticipantTimer.startSpeaking step 2 update: stamp `ended_at = now` on
the rows whose id is in `ids` (and nothing else — no duration write). -/
def closeSessions (ids : List Nat) (now : Nat) (ss : List Session) :
    List Session :=
  ss.map fun s =>
    if ids.contains s.id then { s with ended_at := some now } else s

/-- ParticipantTimer.startSpeaking step 4: `update({ is_currently_speaking:
true }).eq("id", participant.id)`. -/
def setSpeakingById (participantId : Nat) (ps : List Participant) :
    List Participant :=
  ps.map fun q =>
    if q.id = participantId then { q with is_currently_speaking := true }
    else q

/-- ParticipantTimer.startSpeaking (success path, all awaited steps in
order).  `prt` is the participant prop the component was rendered with,
`newSessionId` the identity the datastore generates for the inserted
session, `now` the instant.  Returns the new datastore and the new local
component state (`setActiveSessionId(newSession.id); setCurrentSessionTime(0)`). -/
def startSpeaking (prt : Participant) (meetingId now newSessionId : Nat)
    (db : DB) : DB × TimerState :=
  let ps1 := clearSpeakingInMeeting meetingId db.participants
  let ids := openSessionIds meetingId db.sessions
  let ss1 := if ids.length > 0 then closeSessions ids now db.sessions
             else db.sessions
  let newSession : Session :=
    { id := newSessionId, participant_id := prt.id, meeting_id := meetingId,
      started_at := now, ended_at := none, duration := none,
      start_time := none, end_time := none }
  let ss2 := ss1 ++ [newSession]
  let ps2 := setSpeakingById prt.id ps1
  ({ db with participants := ps2, sessions := ss2 },
   { currentSessionTime := 0, activeSessionId := some newSessionId })

/-- ParticipantTimer.stopSpeaking (success path).  `sessionDuration` is the
locally ticked counter; if `activeSessionId` is set the session row with
that id gets `ended_at = now` and `duration = sessionDuration`; the
participant row is then written with the snapshot-based aggregate values. -/
def stopSpeaking (prt : Participant) (now : Nat) (db : DB)
    (st : TimerState) : DB × TimerState :=
  let sessionDuration := st.currentSessionTime
  let ss1 :=
    match st.activeSessionId with
    | some sid =>
        db.sessions.map fun s =>
          if s.id = sid then
            { s with ended_at := some now, duration := some sessionDuration }
          else s
    | none => db.sessions
  let ps1 := db.participants.map fun q =>
    if q.id = prt.id then
      { q with
          is_currently_speaking := false,
          total_speaking_time := prt.total_speaking_time + sessionDuration,
          speaking_sessions := prt.speaking_sessions + 1 }
    else q
  ({ db with participants := ps1, sessions := ss1 },
   { currentSessionTime := 0, activeSessionId := none })

/-- ParticipantsNameList.toggleParticipantSpeaking (success path).
`participants` is the props list the component was rendered with.  The
start branch clears the meeting, sets the participant speaking and inserts
a session carrying `start_time`; the stop branch clears the participant and
stamps `end_time = now` on that participant's rows with `end_time` null. -/
def toggleParticipantSpeaking (participants : List Participant)
    (participantId meetingId now newSessionId : Nat) (db : DB) : DB :=
  match participants.find? (fun p => p.id == participantId) with
  | none => db
  | some prt =>
    let newStatus := !prt.is_currently_speaking
    let ps1 :=
      if newStatus then clearSpeakingInMeeting meetingId db.participants
      else db.participants
    let ps2 := ps1.map fun q =>
      if q.id = participantId then
        { q with is_currently_speaking := newStatus }
      else q
    if newStatus then
      let newSession : Session :=
        { id := newSessionId, participant_id := participantId,
          meeting_id := meetingId, started_at := now, ended_at := none,
          duration := none, start_time := some now, end_time := none }
      { db with participants := ps2, sessions := db.sessions ++ [newSession] }
    else
      { db with
          participants := ps2,
          sessions := db.sessions.map fun s =>
            if s.participant_id = participantId ∧ s.end_time = none then
              { s with end_time := some now }
            else s }

/-- ParticipantsNameList.addParticipant: returns unchanged when the trimmed
name is empty, otherwise inserts a row with both aggregates zero and
`is_currently_speaking` false. -/
def addParticipant (nm : String) (meetingId newId : Nat) (db : DB) : DB :=
  if strTrim nm = "" then db
  else
    { db with
        participants := db.participants ++
          [{ id := newId, meeting_id := meetingId, name := strTrim nm,
             total_speaking_time := 0, speaking_sessions := 0,
             is_currently_speaking := false }] }

/-- ParticipantsNameList.removeParticipant: `delete().eq('id',
participantId)`; the schema cascades the participant's session rows. -/
def removeParticipant (participantId : Nat) (db : DB) : DB :=
  { db with
      participants := db.participants.filter fun p => !(p.id == participantId),
      sessions := db.sessions.filter fun s => !(s.participant_id == participantId) }

/-- The participant rows CreateMeetingDialog.handleCreate inserts: one per
valid name, ids generated by the datastore (modelled as consecutive from
`nextId`), all other columns left to their schema defaults (0, 0, false). -/
def participantRows (meetingId : Nat) : Nat → List String → List Participant
  | _, [] => []
  | nextId, n :: rest =>
      { id := nextId, meeting_id := meetingId, name := strTrim n,
        total_speaking_time := 0, speaking_sessions := 0,
        is_currently_speaking := false } ::
        participantRows meetingId (nextId + 1) rest

/-- CreateMeetingDialog.handleCreate (success path).  Validation first
(blank title, then no non-blank participant name) returns with no remote
write; otherwise every meeting with `is_active = true` is deactivated and
stamped with `ended_at = now`, the new meeting is inserted (`is_active`
defaults to true in the schema), and the valid participants are inserted. -/
def handleCreate (title : String) (participants : List String)
    (now newMeetingId createdBy basePid : Nat) (db : DB) : DB :=
  if strTrim title = "" then db
  else
    let validParticipants := participants.filter fun p => !(strTrim p == "")
    if validParticipants.length = 0 then db
    else
      let ms1 := db.meetings.map fun mt =>
        if mt.is_active then
          { mt with is_active := false, ended_at := some now }
        else mt
      let newMeeting : Meeting :=
        { id := newMeetingId, title := strTrim title, created_by := createdBy,
          is_active := true, ended_at := none }
      { db with
          meetings := ms1 ++ [newMeeting],
          participants := db.participants ++
            participantRows newMeetingId basePid validParticipants }

/-- QuestionsPanel.submitQuestion (success path).  Blank question, or blank
name while not anonymous, returns with no remote write; otherwise a
question row is inserted with `asker_name` null when anonymous. -/
def submitQuestion (newQuestion askerName : String) (isAnonymous : Bool)
    (meetingId newQuestionId : Nat) (db : DB) : DB :=
  if strTrim newQuestion = "" then db
  else if !isAnonymous && strTrim askerName == "" then db
  else
    { db with
        questions := db.questions ++
          [{ id := newQuestionId, meeting_id := meetingId,
             question := strTrim newQuestion,
             asker_name := if isAnonymous then none else some (strTrim askerName),
             is_answered := false }] }

/-- One entry of ActiveMeetingView's `localCounters` record. -/
structure Counter where
  startTime : Nat
  baseSeconds : Nat
deriving DecidableEq, Repr

/-- ActiveMeetingView's counter-synchronisation effect: if some fetched
participant is speaking and has no counter, replace the record with a
single counter seeded from `Date.now()` and that participant's
`total_speaking_time`; if nobody is speaking, clear the record. -/
def syncLocalCounters (participants : List Participant)
    (localCounters : List (Nat × Counter)) (now : Nat) :
    List (Nat × Counter) :=
  match participants.find? (fun p => p.is_currently_speaking) with
  | some currentSpeaker =>
      if (localCounters.lookup currentSpeaker.id).isNone then
        [(currentSpeaker.id,
          { startTime := now,
            baseSeconds := currentSpeaker.total_speaking_time })]
      else localCounters
  | none =>
      if localCounters.length > 0 then [] else localCounters

/-- The last session row of a given participant in insertion order: the
session most recently opened for that participant (inserts append). -/
def lastSessionOf (pid : Nat) : List Session → Option Session
  | [] => none
  | s :: rest =>
      match lastSessionOf pid rest with
      | some t => some t
      | none => if s.participant_id = pid then some s else none

/-- Concrete participant row used to instantiate the theorems. -/
def alice : Participant :=
  { id := 1, meeting_id := 1, name := "Alice", total_speaking_time := 7,
    speaking_sessions := 2, is_currently_speaking := true }

/-- Concrete participant row used to instantiate the theorems. -/
def bob : Participant :=
  { id := 2, meeting_id := 1, name := "Bob", total_speaking_time := 3,
    speaking_sessions := 1, is_currently_speaking := false }

/-- Concrete open session row (belonging to alice) used to instantiate the
theorems. -/
def aliceOpenSession : Session :=
  { id := 10, participant_id := 1, meeting_id := 1, started_at := 100,
    ended_at := none, duration := none, start_time := none,
    end_time := none }

/-- Concrete active meeting row used to instantiate the theorems. -/
def sampleMeeting : Meeting :=
  { id := 1, title := "Standup", created_by := 9, is_active := true,
    ended_at := none }

/-- Concrete datastore snapshot used to instantiate the theorems: one
active meeting, alice speaking with one open session, bob idle. -/
def sampleDB : DB :=
  { meetings := [sampleMeeting],
    participants := [alice, bob],
    sessions := [aliceOpenSession],
    questions := [] }

/-- The successful core operations a sequence of which claim C6 ranges
over: each constructor carries the client inputs and the fresh row ids the
datastore would generate for that call. -/
inductive Op where
  | add (nm : String) (meetingId newId : Nat)
  | remove (participantId : Nat)
  | start (participantId meetingId now newSessionId : Nat)
  | stop (participantId dur now : Nat) (sid : Option Nat)
  | toggle (participantId meetingId now newSessionId : Nat)
  | create (title : String) (names : List String)
      (now newMeetingId createdBy basePid : Nat)
  | ask (question askerName : String) (isAnonymous : Bool)
      (meetingId newQuestionId : Nat)
deriving DecidableEq, Repr

/-- Run one successful core operation against the store.  The timer
components receive their participant prop from the preceding fetch, so
under normal (non-interleaved, non-error) operation the snapshot passed to
startSpeaking / stopSpeaking is the current row, found by id; `dur` is the
locally ticked counter at the moment of the stop. -/
def applyOp (db : DB) : Op → DB
  | .add nm meetingId newId => addParticipant nm meetingId newId db
  | .remove pid => removeParticipant pid db
  | .start pid m now sid =>
      match db.participants.find? (fun p => p.id == pid) with
      | some prt => (startSpeaking prt m now sid db).1
      | none => db
  | .stop pid dur now sid =>
      match db.participants.find? (fun p => p.id == pid) with
      | some prt =>
          (stopSpeaking prt now db
            { currentSessionTime := dur, activeSessionId := sid }).1
      | none => db
  | .toggle pid m now sid =>
      toggleParticipantSpeaking db.participants pid m now sid db
  | .create title names now mid uid basePid =>
      handleCreate title names now mid uid basePid db
  | .ask q a anon m qid => submitQuestion q a anon m qid db

/-- Run a sequence of successful core operations. -/
def applyOps (db : DB) (ops : List Op) : DB := ops.foldl applyOp db

/-- Participant row ids are pairwise distinct (the datastore's primary-key
invariant). -/
def pidsNodup (db : DB) : Prop :=
  (db.participants.map fun p => p.id).Nodup

/-- Every participant row id lies below the generator bound `b`. -/
def pidsBelow (db : DB) (b : Nat) : Prop :=
  ∀ p ∈ db.participants, p.id < b

/-- The fresh ids an operation consumes lie at or above the generator
bound (ids are never reused, as with the datastore's generated keys). -/
def opFresh (b : Nat) : Op → Bool
  | .add _ _ newId => Nat.ble b newId
  | .create _ _ _ _ _ basePid => Nat.ble b basePid
  | _ => true

/-- The generator bound after an operation. -/
def opNext (b : Nat) : Op → Nat
  | .add _ _ newId => newId + 1
  | .create _ names _ _ _ basePid =>
      basePid + (names.filter fun p => !(strTrim p == "")).length
  | _ => b

/-- A sequence of operations is admissible from bound `b`: every
operation's fresh ids respect the running bound. -/
def admissible : Nat → DB → List Op → Bool
  | _, _, [] => true
  | b, db, op :: rest =>
      opFresh b op && admissible (opNext b op) (applyOp db op) rest

/-- The invariant one successful core operation preserves, from store `db`
at bound `b` to store `db2` at bound `nb`: ids stay pairwise distinct and
bounded, an absent id stays absent, and no participant's aggregates
decrease. -/
def stepOK (db db2 : DB) (b nb : Nat) : Prop :=
  pidsNodup db2 ∧ pidsBelow db2 nb ∧
  (∀ x, x < b → (∀ p ∈ db.participants, p.id ≠ x) →
    ∀ p ∈ db2.participants, p.id ≠ x) ∧
  (∀ p ∈ db.participants, ∀ q ∈ db2.participants, q.id = p.id →
    p.total_speaking_time ≤ q.total_speaking_time ∧
    p.speaking_sessions ≤ q.speaking_sessions)

/-- Claim C9: a create operation invoked with an empty required field
(meeting creation with a blank title or with no non-blank participant name;
question submission with a blank question, or a blank name while not
anonymous) performs no remote mutation: the datastore is returned
unchanged. -/
theorem validation_no_mutation :
    (∀ (title : String) (ps : List String) (now mid uid basePid : Nat)
        (db : DB), strTrim title = "" →
        handleCreate title ps now mid uid basePid db = db) ∧
    (∀ (title : String) (ps : List String) (now mid uid basePid : Nat)
        (db : DB), (ps.filter fun p => !(strTrim p == "")).length = 0 →
        handleCreate title ps now mid uid basePid db = db) ∧
    (∀ (q nm : String) (anon : Bool) (m qid : Nat) (db : DB),
        strTrim q = "" → submitQuestion q nm anon m qid db = db) ∧
    (∀ (q nm : String) (m qid : Nat) (db : DB),
        strTrim q ≠ "" → strTrim nm = "" →
        submitQuestion q nm false m qid db = db) := by
  refine ⟨?_, ?_, ?_, ?_⟩
  · intro title ps now mid uid basePid db h
    simp [handleCreate, h]
  · intro title ps now mid uid basePid db h
    by_cases ht : strTrim title = ""
    · simp [handleCreate, ht]
    · simp [handleCreate, ht, h]
  · intro q nm anon m qid db h
    simp [submitQuestion, h]
  · intro q nm m qid db hq hn
    simp [submitQuestion, hq, hn]

/-- Claim C9 witness: the validation theorem evaluated on concrete blank
inputs against the sample datastore. -/
theorem validation_no_mutation_witness :
    handleCreate "   " ["Alice"] 5 6 9 20 sampleDB = sampleDB ∧
    handleCreate "Retro" ["", "  "] 5 6 9 20 sampleDB = sampleDB ∧
    submitQuestion "" "Carol" false 1 30 sampleDB = sampleDB ∧
    submitQuestion "Why?" " " false 1 30 sampleDB = sampleDB :=
  ⟨validation_no_mutation.1 "   " ["Alice"] 5 6 9 20 sampleDB (by decide),
   validation_no_mutation.2.1 "Retro" ["", "  "] 5 6 9 20 sampleDB (by decide),
   validation_no_mutation.2.2.1 "" "Carol" false 1 30 sampleDB (by decide),
   validation_no_mutation.2.2.2 "Why?" " " 1 30 sampleDB (by decide) (by decide)⟩

/-- Claim C10: stopSpeaking invoked while the local bookkeeping records no
open session id modifies no session row, yet still updates the
participant's aggregate: speaking cleared, the ticked counter added to
total_speaking_time, and speaking_sessions incremented. -/
theorem stopSpeaking_without_session (prt : Participant) (now : Nat)
    (db : DB) (st : TimerState) (hnone : st.activeSessionId = none) :
    (stopSpeaking prt now db st).1.sessions = db.sessions ∧
    ∀ q ∈ db.participants, q.id = prt.id →
      ∃ q2 ∈ (stopSpeaking prt now db st).1.participants,
        q2.id = prt.id ∧ q2.is_currently_speaking = false ∧
        q2.total_speaking_time =
          prt.total_speaking_time + st.currentSessionTime ∧
        q2.speaking_sessions = prt.speaking_sessions + 1 := by
  constructor
  · simp [stopSpeaking, hnone]
  · intro q hq hid
    refine ⟨_, List.mem_map_of_mem _ hq, ?_⟩
    simp [hid]

/-- Claim C10 witness: stopping alice with a ticked counter of 4 but no
recorded session id leaves the session table unchanged and writes the
aggregate 7 + 4 with 2 + 1 sessions. -/
theorem stopSpeaking_without_session_witness :
    (stopSpeaking alice 200 sampleDB
        { currentSessionTime := 4, activeSessionId := none }).1.sessions =
      sampleDB.sessions ∧
    ∀ q ∈ sampleDB.participants, q.id = alice.id →
      ∃ q2 ∈ (stopSpeaking alice 200 sampleDB
          { currentSessionTime := 4, activeSessionId := none }).1.participants,
        q2.id = alice.id ∧ q2.is_currently_speaking = false ∧
        q2.total_speaking_time = alice.total_speaking_time + 4 ∧
        q2.speaking_sessions = alice.speaking_sessions + 1 :=
  stopSpeaking_without_session alice 200 sampleDB
    { currentSessionTime := 4, activeSessionId := none } rfl

/-- Claim C4: with a ticked counter of n, stopSpeaking closes the recorded
session with duration = n (the local tick count) and ended_at = now, and
writes the participant aggregate total_speaking_time + n,
speaking_sessions + 1 (relative to the snapshot, which matches the stored
row). -/
theorem stopSpeaking_credits_ticks (prt : Participant) (now : Nat)
    (db : DB) (st : TimerState) (sid : Nat)
    (hsid : st.activeSessionId = some sid)
    (row : Participant) (hrow : row ∈ db.participants)
    (hid : row.id = prt.id)
    (htot : row.total_speaking_time = prt.total_speaking_time)
    (hses : row.speaking_sessions = prt.speaking_sessions)
    (s : Session) (hs : s ∈ db.sessions) (hsid2 : s.id = sid) :
    (∃ q2 ∈ (stopSpeaking prt now db st).1.participants,
        q2.id = prt.id ∧
        q2.total_speaking_time =
          row.total_speaking_time + st.currentSessionTime ∧
        q2.speaking_sessions = row.speaking_sessions + 1) ∧
    (∃ s2 ∈ (stopSpeaking prt now db st).1.sessions,
        s2.id = sid ∧ s2.duration = some st.currentSessionTime ∧
        s2.ended_at = some now) := by
  constructor
  · refine ⟨_, List.mem_map_of_mem _ hrow, ?_⟩
    simp [hid, htot, hses]
  · have hmem :
        (if s.id = sid then
            { s with ended_at := some now,
                     duration := some st.currentSessionTime }
          else s) ∈ (stopSpeaking prt now db st).1.sessions := by
      simp only [stopSpeaking, hsid]
      exact List.mem_map_of_mem _ hs
    refine ⟨_, hmem, ?_⟩
    simp [hsid2]

/-- Claim C4 witness: stopping alice after 5 ticks on her open session 10
credits exactly 5 seconds and one session, and closes the row with
duration 5. -/
theorem stopSpeaking_credits_ticks_witness :
    (∃ q2 ∈ (stopSpeaking alice 200 sampleDB
        { currentSessionTime := 5, activeSessionId := some 10 }).1.participants,
        q2.id = alice.id ∧
        q2.total_speaking_time = alice.total_speaking_time + 5 ∧
        q2.speaking_sessions = alice.speaking_sessions + 1) ∧
    (∃ s2 ∈ (stopSpeaking alice 200 sampleDB
        { currentSessionTime := 5, activeSessionId := some 10 }).1.sessions,
        s2.id = 10 ∧ s2.duration = some 5 ∧ s2.ended_at = some 200) :=
  stopSpeaking_credits_ticks alice 200 sampleDB
    { currentSessionTime := 5, activeSessionId := some 10 } 10 rfl
    alice (by decide) rfl rfl rfl
    aliceOpenSession (by decide) rfl

/-- Closing sessions stamps `ended_at` only: the duration column of every
row is untouched. -/
theorem closeSessions_map_duration (ids : List Nat) (now : Nat)
    (ss : List Session) :
    ((closeSessions ids now ss).map fun s => s.duration) =
      ss.map fun s => s.duration := by
  simp only [closeSessions, List.map_map]
  apply List.map_congr_left
  intro s _
  by_cases h : s.id ∈ ids <;> simp [h]

/-- A row whose id is closed keeps everything but `ended_at`. -/
theorem closeSessions_mem (ids : List Nat) (now : Nat) (ss : List Session)
    (s : Session) (hs : s ∈ ss) (hid : s.id ∈ ids) :
    { s with ended_at := some now } ∈ closeSessions ids now ss := by
  have h := List.mem_map_of_mem
    (fun s => if ids.contains s.id then { s with ended_at := some now } else s)
    hs
  simpa [closeSessions, hid] using h

/-- An open session of the meeting is returned by the step-2 query. -/
theorem mem_openSessionIds (m : Nat) (ss : List Session) (s : Session)
    (hs : s ∈ ss) (hm : s.meeting_id = m) (ho : s.ended_at = none) :
    s.id ∈ openSessionIds m ss := by
  simp only [openSessionIds, List.mem_map]
  exact ⟨s, List.mem_filter.mpr ⟨hs, by simp [hm, ho]⟩, rfl⟩

/-- Claim C3: when open sessions exist in the meeting, startSpeaking's
cleanup closes them by stamping `ended_at` only — the duration column of
every pre-existing row is unchanged (the new row is inserted with null
duration), each previously-open row of the meeting ends up with
`ended_at = now` and its old duration, and every participant's
total_speaking_time and speaking_sessions are unchanged. -/
theorem startSpeaking_cleanup_frame (prt : Participant) (m now sid : Nat)
    (db : DB) (s0 : Session) (hs0 : s0 ∈ db.sessions)
    (hs0m : s0.meeting_id = m) (hs0open : s0.ended_at = none) :
    (((startSpeaking prt m now sid db).1.sessions.map fun s => s.duration) =
      (db.sessions.map fun s => s.duration) ++ [none]) ∧
    (∀ s ∈ db.sessions, s.meeting_id = m → s.ended_at = none →
      ∃ s2 ∈ (startSpeaking prt m now sid db).1.sessions,
        s2.id = s.id ∧ s2.ended_at = some now ∧ s2.duration = s.duration) ∧
    (((startSpeaking prt m now sid db).1.participants.map fun q =>
        (q.total_speaking_time, q.speaking_sessions)) =
      db.participants.map fun q =>
        (q.total_speaking_time, q.speaking_sessions)) := by
  have hlen : (openSessionIds m db.sessions).length > 0 :=
    List.length_pos.mpr
      (List.ne_nil_of_mem (mem_openSessionIds m db.sessions s0 hs0 hs0m hs0open))
  refine ⟨?_, ?_, ?_⟩
  · simp only [startSpeaking, if_pos hlen, List.map_append,
      closeSessions_map_duration]
    rfl
  · intro s hs hm ho
    refine ⟨{ s with ended_at := some now }, ?_, rfl, rfl, rfl⟩
    simp only [startSpeaking, if_pos hlen]
    exact List.mem_append_left _
      (closeSessions_mem _ now _ s hs (mem_openSessionIds m db.sessions s hs hm ho))
  · simp only [startSpeaking, setSpeakingById, clearSpeakingInMeeting,
      List.map_map]
    apply List.map_congr_left
    intro q _
    by_cases h1 : q.meeting_id = m <;> by_cases h2 : q.id = prt.id <;>
      simp [h1, h2]

/-- Claim C3 witness: bob pre-empting alice closes her open session with
`ended_at = 200` and no duration, and leaves both aggregates untouched. -/
theorem startSpeaking_cleanup_frame_witness :
    (((startSpeaking bob 1 200 11 sampleDB).1.sessions.map
        fun s => s.duration) =
      (sampleDB.sessions.map fun s => s.duration) ++ [none]) ∧
    (∀ s ∈ sampleDB.sessions, s.meeting_id = 1 → s.ended_at = none →
      ∃ s2 ∈ (startSpeaking bob 1 200 11 sampleDB).1.sessions,
        s2.id = s.id ∧ s2.ended_at = some 200 ∧ s2.duration = s.duration) ∧
    (((startSpeaking bob 1 200 11 sampleDB).1.participants.map fun q =>
        (q.total_speaking_time, q.speaking_sessions)) =
      sampleDB.participants.map fun q =>
        (q.total_speaking_time, q.speaking_sessions)) :=
  startSpeaking_cleanup_frame bob 1 200 11 sampleDB aliceOpenSession
    (by decide) rfl rfl

/-- Claim C7: with a non-blank title and at least one non-blank participant
name, handleCreate deactivates (and stamps `ended_at` on) every previously
active meeting and then inserts the new meeting, so the new meeting is the
only active meeting afterwards. -/
theorem handleCreate_single_active_meeting (title : String)
    (names : List String) (now mid uid basePid : Nat) (db : DB)
    (ht : strTrim title ≠ "")
    (hp : (names.filter fun p => !(strTrim p == "")).length ≠ 0) :
    (((handleCreate title names now mid uid basePid db).meetings.filter
        fun mt => mt.is_active).map fun mt => mt.id) = [mid] ∧
    ∀ mt ∈ db.meetings, mt.is_active = true →
      ∃ mt2 ∈ (handleCreate title names now mid uid basePid db).meetings,
        mt2.id = mt.id ∧ mt2.is_active = false ∧ mt2.ended_at = some now := by
  have hnil : ((db.meetings.map fun mt =>
      if mt.is_active then { mt with is_active := false, ended_at := some now }
      else mt).filter fun mt => mt.is_active) = [] := by
    apply List.filter_eq_nil_iff.mpr
    intro mt hmt
    rcases List.mem_map.mp hmt with ⟨mt0, _, rfl⟩
    by_cases h : mt0.is_active <;> simp [h]
  constructor
  · simp only [handleCreate, if_neg ht, if_neg hp, List.filter_append, hnil,
      List.nil_append]
    rfl
  · intro mt hmt hact
    refine ⟨{ mt with is_active := false, ended_at := some now }, ?_, rfl,
      rfl, rfl⟩
    simp only [handleCreate, if_neg ht, if_neg hp]
    apply List.mem_append_left
    have h := List.mem_map_of_mem (fun mt =>
      if mt.is_active then { mt with is_active := false, ended_at := some now }
      else mt) hmt
    simpa [hact] using h

/-- Claim C7 witness: creating a meeting titled Retro over the sample
datastore (whose meeting 1 is active) leaves meeting 5 as the only active
meeting and deactivates meeting 1 with `ended_at = 500`. -/
theorem handleCreate_single_active_meeting_witness :
    (((handleCreate "Retro" ["Carol"] 500 5 9 20 sampleDB).meetings.filter
        fun mt => mt.is_active).map fun mt => mt.id) = [5] ∧
    ∀ mt ∈ sampleDB.meetings, mt.is_active = true →
      ∃ mt2 ∈ (handleCreate "Retro" ["Carol"] 500 5 9 20 sampleDB).meetings,
        mt2.id = mt.id ∧ mt2.is_active = false ∧ mt2.ended_at = some 500 :=
  handleCreate_single_active_meeting "Retro" ["Carol"] 500 5 9 20 sampleDB
    (by decide) (by decide)

/-- find? returns the unique participant satisfying the flag. -/
theorem find?_speaker_eq (ps : List Participant) (p : Participant)
    (hp : p ∈ ps) (hs : p.is_currently_speaking = true)
    (hu : ∀ q ∈ ps, q.is_currently_speaking = true → q = p) :
    ps.find? (fun q => q.is_currently_speaking) = some p := by
  induction ps with
  | nil => cases hp
  | cons a tl ih =>
    by_cases ha : a.is_currently_speaking = true
    · have hap : a = p := hu a (List.mem_cons_self a tl) ha
      subst hap
      exact List.find?_cons_of_pos _ ha
    · have hp2 : p ∈ tl := by
        cases hp with
        | head => exact absurd hs ha
        | tail _ h => exact h
      rw [List.find?_cons_of_neg _ (by simpa using ha)]
      exact ih hp2 fun q hq hqs => hu q (List.mem_cons_of_mem a hq) hqs

/-- Claim C8: the Live Timer Presenter's counter synchronisation — when no
fetched participant is speaking the local counter record becomes empty;
when the (unique) speaking participant has no local counter, the record is
replaced with one counter for them seeded with the observation instant as
startTime and their persisted total_speaking_time as baseSeconds. -/
theorem syncLocalCounters_spec :
    (∀ (ps : List Participant) (lc : List (Nat × Counter)) (now : Nat),
      (∀ p ∈ ps, p.is_currently_speaking = false) →
      syncLocalCounters ps lc now = []) ∧
    (∀ (ps : List Participant) (lc : List (Nat × Counter)) (now : Nat)
        (p : Participant), p ∈ ps → p.is_currently_speaking = true →
      (∀ q ∈ ps, q.is_currently_speaking = true → q = p) →
      lc.lookup p.id = none →
      syncLocalCounters ps lc now =
        [(p.id, { startTime := now,
                  baseSeconds := p.total_speaking_time })]) := by
  constructor
  · intro ps lc now h
    have hfind : ps.find? (fun q => q.is_currently_speaking) = none :=
      List.find?_eq_none.mpr fun q hq => by simp [h q hq]
    by_cases hl : lc.length > 0
    · simp [syncLocalCounters, hfind, hl]
    · have : lc = [] :=
        List.eq_nil_of_length_eq_zero (Nat.eq_zero_of_not_pos hl)
      simp [syncLocalCounters, hfind, this]
  · intro ps lc now p hp hs hu hlook
    simp [syncLocalCounters, find?_speaker_eq ps p hp hs hu, hlook]

/-- Claim C8 witness: the synchronisation effect evaluated on the sample
participants — with only bob idle the record empties, and with alice
speaking and no counter the record seeds (startTime 300, baseSeconds 7). -/
theorem syncLocalCounters_spec_witness :
    syncLocalCounters [bob] [(1, { startTime := 5, baseSeconds := 7 })] 300
        = [] ∧
    syncLocalCounters [alice, bob] [] 300 =
      [(alice.id, { startTime := 300,
                    baseSeconds := alice.total_speaking_time })] :=
  ⟨syncLocalCounters_spec.1 [bob] [(1, { startTime := 5, baseSeconds := 7 })]
      300 (by decide),
   syncLocalCounters_spec.2 [alice, bob] [] 300 alice (by decide) rfl
      (by decide) rfl⟩

/-- If a boolean-keyed filter can only select the unique row carrying
`row.id`, the filter returns exactly that row (ids pairwise distinct). -/
theorem filter_eq_singleton_of_unique_id (ps : List Participant)
    (row : Participant) (hnd : (ps.map fun p => p.id).Nodup)
    (hmem : row ∈ ps) (pred : Participant → Bool)
    (honly : ∀ q, pred q = true → q.id = row.id)
    (hrow : pred row = true) :
    ps.filter pred = [row] := by
  induction ps with
  | nil => cases hmem
  | cons a tl ih =>
    rw [List.map_cons, List.nodup_cons] at hnd
    cases hmem with
    | head =>
      have htl : tl.filter pred = [] := by
        apply List.filter_eq_nil_iff.mpr
        intro q hq hpq
        exact hnd.1 (honly q hpq ▸ List.mem_map_of_mem (fun p => p.id) hq)
      rw [List.filter_cons_of_pos hrow, htl]
    | tail _ hmem2 =>
      have hpa : ¬ pred a = true := by
        intro h
        exact hnd.1 (honly a h ▸ List.mem_map_of_mem (fun p => p.id) hmem2)
      rw [List.filter_cons_of_neg (by simpa using hpa)]
      exact ih hnd.2 hmem2

/-- Claim C1: after a successful startSpeaking(p, m) with no interleaved
operations (ids pairwise distinct, p's row belonging to meeting m),
exactly one participant of meeting m is marked speaking, and it is p. -/
theorem startSpeaking_sole_speaker (prt : Participant) (m now sid : Nat)
    (db : DB) (hnd : (db.participants.map fun p => p.id).Nodup)
    (row : Participant) (hmem : row ∈ db.participants)
    (hid : row.id = prt.id) (hm : row.meeting_id = m) :
    (((startSpeaking prt m now sid db).1.participants.filter
        fun q => q.meeting_id == m && q.is_currently_speaking).map
      fun q => q.id) = [prt.id] := by
  have hps : (startSpeaking prt m now sid db).1.participants =
      db.participants.map (fun q : Participant =>
        if q.id = prt.id then { q with is_currently_speaking := true }
        else if q.meeting_id = m then
          { q with is_currently_speaking := false }
        else q) := by
    simp only [startSpeaking, setSpeakingById, clearSpeakingInMeeting,
      List.map_map]
    apply List.map_congr_left
    intro q _
    by_cases h1 : q.meeting_id = m <;> by_cases h2 : q.id = prt.id <;>
      simp [Function.comp, h1, h2]
  have honly : ∀ q : Participant,
      ((fun x : Participant => x.meeting_id == m && x.is_currently_speaking) ∘
        (fun q : Participant =>
          if q.id = prt.id then { q with is_currently_speaking := true }
          else if q.meeting_id = m then
            { q with is_currently_speaking := false }
          else q)) q = true → q.id = row.id := by
    intro q hq
    by_cases h2 : q.id = prt.id
    · rw [hid]; exact h2
    · exfalso
      by_cases h1 : q.meeting_id = m <;>
        simp [Function.comp, h1, h2] at hq
  have hrow :
      ((fun x : Participant => x.meeting_id == m && x.is_currently_speaking) ∘
        (fun q : Participant =>
          if q.id = prt.id then { q with is_currently_speaking := true }
          else if q.meeting_id = m then
            { q with is_currently_speaking := false }
          else q)) row = true := by
    simp [Function.comp, hid, hm]
  rw [hps, List.filter_map,
    filter_eq_singleton_of_unique_id db.participants row hnd hmem _
      honly hrow]
  simp [hid, hm]

/-- Claim C1 witness: bob starting to speak over the sample datastore
leaves bob as the unique speaking participant of meeting 1. -/
theorem startSpeaking_sole_speaker_witness :
    (((startSpeaking bob 1 200 11 sampleDB).1.participants.filter
        fun q => q.meeting_id == 1 && q.is_currently_speaking).map
      fun q => q.id) = [bob.id] :=
  startSpeaking_sole_speaker bob 1 200 11 sampleDB (by decide) bob
    (by decide) rfl rfl

/-- lastSessionOf commutes with a rewrite that keeps participant ids. -/
theorem lastSessionOf_map (f : Session → Session)
    (hf : ∀ s, (f s).participant_id = s.participant_id) (pid : Nat) :
    ∀ ss : List Session,
      lastSessionOf pid (ss.map f) = (lastSessionOf pid ss).map f
  | [] => rfl
  | s :: rest => by
    simp only [List.map_cons, lastSessionOf,
      lastSessionOf_map f hf pid rest]
    cases lastSessionOf pid rest with
    | some t => rfl
    | none =>
      simp only [Option.map_none]
      rw [hf s]
      by_cases h : s.participant_id = pid <;> simp [h]

/-- Claim C2: when the local live-timer holds the id of p's open session
(which is p's most recently opened session and p's only open session),
stopSpeaking closes it — the session most recently opened for p ends with
non-null ended_at and non-null duration — and no session of p remains
open. -/
theorem stopSpeaking_closes_ledger (prt : Participant) (now : Nat)
    (db : DB) (st : TimerState) (sid : Nat)
    (hsid : st.activeSessionId = some sid)
    (s0 : Session) (hlast : lastSessionOf prt.id db.sessions = some s0)
    (hs0id : s0.id = sid) (hs0open : s0.ended_at = none)
    (huniq : ∀ s ∈ db.sessions, s.participant_id = prt.id →
      s.ended_at = none → s.id = sid) :
    (∃ s1, lastSessionOf prt.id (stopSpeaking prt now db st).1.sessions =
        some s1 ∧ s1.ended_at = some now ∧
        s1.duration = some st.currentSessionTime) ∧
    ∀ s2 ∈ (stopSpeaking prt now db st).1.sessions,
      s2.participant_id = prt.id → s2.ended_at ≠ none := by
  have hss : (stopSpeaking prt now db st).1.sessions =
      db.sessions.map (fun s : Session =>
        if s.id = sid then
          { s with ended_at := some now,
                   duration := some st.currentSessionTime }
        else s) := by
    simp [stopSpeaking, hsid]
  have hfpid : ∀ s : Session,
      ((fun s : Session =>
        if s.id = sid then
          { s with ended_at := some now,
                   duration := some st.currentSessionTime }
        else s) s).participant_id = s.participant_id := by
    intro s
    by_cases h : s.id = sid <;> simp [h]
  constructor
  · refine ⟨{ s0 with ended_at := some now, duration := some st.currentSessionTime }, ?_, rfl, rfl⟩
    rw [hss, lastSessionOf_map _ hfpid prt.id db.sessions, hlast]
    simp [hs0id]
  · intro s2 hs2 hpid
    rw [hss] at hs2
    rcases List.mem_map.mp hs2 with ⟨s, hs, rfl⟩
    by_cases h : s.id = sid
    · simp [h]
    · simp only [if_neg h] at hpid ⊢
      intro hopen
      exact h (huniq s hs hpid hopen)

/-- Claim C2 witness: stopping alice whose open session 10 is recorded
locally closes it with ended_at 200 and duration 5, leaving alice with no
open session. -/
theorem stopSpeaking_closes_ledger_witness :
    (∃ s1, lastSessionOf alice.id
        (stopSpeaking alice 200 sampleDB
          { currentSessionTime := 5, activeSessionId := some 10 }).1.sessions
        = some s1 ∧ s1.ended_at = some 200 ∧ s1.duration = some 5) ∧
    ∀ s2 ∈ (stopSpeaking alice 200 sampleDB
        { currentSessionTime := 5, activeSessionId := some 10 }).1.sessions,
      s2.participant_id = alice.id → s2.ended_at ≠ none :=
  stopSpeaking_closes_ledger alice 200 sampleDB
    { currentSessionTime := 5, activeSessionId := some 10 } 10 rfl
    aliceOpenSession rfl rfl rfl (by decide)

/-- Claim C5: toggleParticipantSpeaking never touches any participant's
total_speaking_time or speaking_sessions (both branches), and when it
stops a speaking participant it writes only the end timestamp (`end_time`)
on that participant's open session rows — every other session column,
including `duration` and `ended_at`, is unchanged, and no duration is
persisted. -/
theorem toggleParticipantSpeaking_frame (participants : List Participant)
    (pid m now sid : Nat) (db : DB) :
    ((toggleParticipantSpeaking participants pid m now sid db).participants.map
        fun q => (q.id, q.total_speaking_time, q.speaking_sessions)) =
      (db.participants.map fun q =>
        (q.id, q.total_speaking_time, q.speaking_sessions)) ∧
    ∀ prt, participants.find? (fun p => p.id == pid) = some prt →
      prt.is_currently_speaking = true →
      (((toggleParticipantSpeaking participants pid m now sid db).sessions.map
          fun s => (s.id, s.participant_id, s.meeting_id, s.started_at,
            s.ended_at, s.duration, s.start_time)) =
        (db.sessions.map fun s => (s.id, s.participant_id, s.meeting_id,
          s.started_at, s.ended_at, s.duration, s.start_time))) ∧
      ∀ s ∈ db.sessions, s.participant_id = pid → s.end_time = none →
        ∃ s2 ∈ (toggleParticipantSpeaking participants pid m now sid db).sessions,
          s2.id = s.id ∧ s2.end_time = some now := by
  constructor
  · cases hf : participants.find? (fun p => p.id == pid) with
    | none => simp [toggleParticipantSpeaking, hf]
    | some prt =>
      cases hsp : prt.is_currently_speaking with
      | true =>
        simp only [toggleParticipantSpeaking, hf, hsp, Bool.not_true,
          if_neg (Bool.false_ne_true), List.map_map]
        apply List.map_congr_left
        intro q _
        by_cases h : q.id = pid <;> simp [Function.comp, h]
      | false =>
        simp only [toggleParticipantSpeaking, hf, hsp, Bool.not_false,
          if_true, clearSpeakingInMeeting, List.map_map]
        apply List.map_congr_left
        intro q _
        by_cases h1 : q.meeting_id = m <;> by_cases h2 : q.id = pid <;>
          simp [Function.comp, h1, h2]
  · intro prt hf hsp
    have hstop : toggleParticipantSpeaking participants pid m now sid db =
        { db with
            participants := db.participants.map fun q =>
              if q.id = pid then { q with is_currently_speaking := false }
              else q,
            sessions := db.sessions.map fun s =>
              if s.participant_id = pid ∧ s.end_time = none then
                { s with end_time := some now }
              else s } := by
      simp [toggleParticipantSpeaking, hf, hsp]
    constructor
    · rw [hstop]
      simp only [List.map_map]
      apply List.map_congr_left
      intro s _
      by_cases h : s.participant_id = pid ∧ s.end_time = none <;>
        simp [Function.comp, h]
    · intro s hs hpid hopen
      refine ⟨{ s with end_time := some now }, ?_, rfl, rfl⟩
      rw [hstop]
      have h := List.mem_map_of_mem (fun s =>
        if s.participant_id = pid ∧ s.end_time = none then
          { s with end_time := some now }
        else s) hs
      simpa [hpid, hopen] using h

/-- Claim C5 witness: toggling alice (currently speaking) off over the
sample datastore stamps end_time 300 on her open session, changes no other
session column, and leaves both participants' aggregates untouched. -/
theorem toggleParticipantSpeaking_frame_witness :
    ((toggleParticipantSpeaking sampleDB.participants 1 1 300 12
        sampleDB).participants.map
        fun q => (q.id, q.total_speaking_time, q.speaking_sessions)) =
      (sampleDB.participants.map fun q =>
        (q.id, q.total_speaking_time, q.speaking_sessions)) ∧
    (((toggleParticipantSpeaking sampleDB.participants 1 1 300 12
        sampleDB).sessions.map
        fun s => (s.id, s.participant_id, s.meeting_id, s.started_at,
          s.ended_at, s.duration, s.start_time)) =
      (sampleDB.sessions.map fun s => (s.id, s.participant_id, s.meeting_id,
        s.started_at, s.ended_at, s.duration, s.start_time))) ∧
    ∀ s ∈ sampleDB.sessions, s.participant_id = 1 → s.end_time = none →
      ∃ s2 ∈ (toggleParticipantSpeaking sampleDB.participants 1 1 300 12
          sampleDB).sessions,
        s2.id = s.id ∧ s2.end_time = some 300 :=
  ⟨(toggleParticipantSpeaking_frame sampleDB.participants 1 1 300 12
      sampleDB).1,
   (toggleParticipantSpeaking_frame sampleDB.participants 1 1 300 12
      sampleDB).2 alice (by decide) rfl⟩

/-- With pairwise distinct ids, a row is determined by its id. -/
theorem eq_of_mem_of_id_eq (ps : List Participant)
    (hnd : (ps.map fun p => p.id).Nodup) (p q : Participant)
    (hp : p ∈ ps) (hq : q ∈ ps) (h : q.id = p.id) : q = p :=
  List.inj_on_of_nodup_map hnd hq hp h

/-- An id-preserving rewrite keeps the id column. -/
theorem map_ids_eq (ps : List Participant) (f : Participant → Participant)
    (hfid : ∀ p, (f p).id = p.id) :
    ((ps.map f).map fun p => p.id) = ps.map fun p => p.id := by
  rw [List.map_map]
  exact List.map_congr_left fun p _ => hfid p

/-- An id-preserving, aggregate-monotone rewrite is monotone on each row
(the row of a given id, ids being pairwise distinct). -/
theorem map_mono (ps : List Participant) (f : Participant → Participant)
    (hfid : ∀ p, (f p).id = p.id)
    (hnd : (ps.map fun p => p.id).Nodup)
    (hmono : ∀ p ∈ ps,
      p.total_speaking_time ≤ (f p).total_speaking_time ∧
      p.speaking_sessions ≤ (f p).speaking_sessions) :
    ∀ p ∈ ps, ∀ q ∈ ps.map f, q.id = p.id →
      p.total_speaking_time ≤ q.total_speaking_time ∧
      p.speaking_sessions ≤ q.speaking_sessions := by
  intro p hp q hq hid
  rcases List.mem_map.mp hq with ⟨p0, hp0, rfl⟩
  have h0 : p0.id = p.id := by rw [← hfid p0]; exact hid
  have hpp : p0 = p := eq_of_mem_of_id_eq ps hnd p p0 hp hp0 h0
  subst hpp
  exact hmono p0 hp0

/-- A step that keeps the id column preserves distinctness, bounds and
absence. -/
theorem ids_eq_facts (db db2 : DB) (b nb : Nat)
    (hids : (db2.participants.map fun p => p.id) =
      db.participants.map fun p => p.id)
    (hnd : pidsNodup db) (hb : pidsBelow db b) (hbn : b ≤ nb) :
    pidsNodup db2 ∧ pidsBelow db2 nb ∧
    (∀ x, x < b → (∀ p ∈ db.participants, p.id ≠ x) →
      ∀ p ∈ db2.participants, p.id ≠ x) := by
  refine ⟨?_, ?_, ?_⟩
  · unfold pidsNodup
    rw [hids]
    exact hnd
  · intro p hp
    have hmem : p.id ∈ db.participants.map fun p => p.id := by
      rw [← hids]
      exact List.mem_map_of_mem _ hp
    rcases List.mem_map.mp hmem with ⟨p0, hp0, hid0⟩
    have := hb p0 hp0
    omega
  · intro x hx habs p hp
    have hmem : p.id ∈ db.participants.map fun p => p.id := by
      rw [← hids]
      exact List.mem_map_of_mem _ hp
    rcases List.mem_map.mp hmem with ⟨p0, hp0, hid0⟩
    rw [← hid0]
    exact habs p0 hp0

/-- A step leaving the participant table untouched satisfies the
invariant. -/
theorem stepOK_unchanged (db db2 : DB) (b nb : Nat)
    (heq : db2.participants = db.participants)
    (hnd : pidsNodup db) (hb : pidsBelow db b) (hbn : b ≤ nb) :
    stepOK db db2 b nb := by
  obtain ⟨h1, h2, h3⟩ := ids_eq_facts db db2 b nb (by rw [heq]) hnd hb hbn
  refine ⟨h1, h2, h3, ?_⟩
  intro p hp q hq hid
  rw [heq] at hq
  have hqp : q = p := eq_of_mem_of_id_eq db.participants hnd p q hp hq hid
  subst hqp
  exact ⟨le_refl _, le_refl _⟩

/-- A step that rewrites rows in place, keeping ids and never decreasing
aggregates, satisfies the invariant. -/
theorem stepOK_map (db db2 : DB) (b nb : Nat)
    (f : Participant → Participant)
    (heq : db2.participants = db.participants.map f)
    (hfid : ∀ p, (f p).id = p.id)
    (hmono : ∀ p ∈ db.participants,
      p.total_speaking_time ≤ (f p).total_speaking_time ∧
      p.speaking_sessions ≤ (f p).speaking_sessions)
    (hnd : pidsNodup db) (hb : pidsBelow db b) (hbn : b ≤ nb) :
    stepOK db db2 b nb := by
  obtain ⟨h1, h2, h3⟩ := ids_eq_facts db db2 b nb
    (by rw [heq]; exact map_ids_eq db.participants f hfid) hnd hb hbn
  refine ⟨h1, h2, h3, ?_⟩
  intro p hp q hq hid
  rw [heq] at hq
  exact map_mono db.participants f hfid hnd hmono p hp q hq hid

/-- A step that deletes rows satisfies the invariant. -/
theorem stepOK_filter (db db2 : DB) (b nb : Nat) (g : Participant → Bool)
    (heq : db2.participants = db.participants.filter g)
    (hnd : pidsNodup db) (hb : pidsBelow db b) (hbn : b ≤ nb) :
    stepOK db db2 b nb := by
  have hsub : ∀ p ∈ db2.participants, p ∈ db.participants := by
    intro p hp
    rw [heq] at hp
    exact List.mem_of_mem_filter hp
  refine ⟨?_, ?_, ?_, ?_⟩
  · unfold pidsNodup
    rw [heq]
    exact hnd.sublist ((db.participants.filter_sublist).map fun p => p.id)
  · intro p hp
    have := hb p (hsub p hp)
    omega
  · intro x hx habs p hp
    exact habs p (hsub p hp)
  · intro p hp q hq hid
    have hqp : q = p :=
      eq_of_mem_of_id_eq db.participants hnd p q hp (hsub q hq) hid
    subst hqp
    exact ⟨le_refl _, le_refl _⟩

/-- A step that inserts rows whose fresh ids sit in `[b, nb)` satisfies
the invariant. -/
theorem stepOK_append (db db2 : DB) (b nb : Nat)
    (news : List Participant)
    (heq : db2.participants = db.participants ++ news)
    (hlo : ∀ r ∈ news, b ≤ r.id) (hhi : ∀ r ∈ news, r.id < nb)
    (hnnd : (news.map fun p => p.id).Nodup)
    (hnd : pidsNodup db) (hb : pidsBelow db b) (hbn : b ≤ nb) :
    stepOK db db2 b nb := by
  refine ⟨?_, ?_, ?_, ?_⟩
  · unfold pidsNodup
    rw [heq, List.map_append, List.nodup_append]
    refine ⟨hnd, hnnd, ?_⟩
    intro a ha hanew
    rcases List.mem_map.mp ha with ⟨p0, hp0, hid0⟩
    rcases List.mem_map.mp hanew with ⟨r, hr, hidr⟩
    have h1 := hb p0 hp0
    have h2 := hlo r hr
    omega
  · intro p hp
    rw [heq] at hp
    rcases List.mem_append.mp hp with h | h
    · have := hb p h
      omega
    · exact hhi p h
  · intro x hx habs p hp
    rw [heq] at hp
    rcases List.mem_append.mp hp with h | h
    · exact habs p h
    · have := hlo p h
      omega
  · intro p hp q hq hid
    rw [heq] at hq
    rcases List.mem_append.mp hq with h | h
    · have hqp : q = p := eq_of_mem_of_id_eq db.participants hnd p q hp h hid
      subst hqp
      exact ⟨le_refl _, le_refl _⟩
    · have h1 := hlo q h
      have h2 := hb p hp
      omega

/-- The rows handleCreate inserts carry ids in `[nextId, nextId + n)` and
zero-initialised aggregates. -/
theorem participantRows_mem_facts (m : Nat) :
    ∀ (b : Nat) (names : List String) (r : Participant),
      r ∈ participantRows m b names →
      b ≤ r.id ∧ r.id < b + names.length ∧
        r.total_speaking_time = 0 ∧ r.speaking_sessions = 0
  | b, [], r, h => by cases h
  | b, n :: rest, r, h => by
    cases h with
    | head =>
      refine ⟨le_refl b, ?_, rfl, rfl⟩
      simp
    | tail _ h2 =>
      obtain ⟨hl, hh, hz⟩ := participantRows_mem_facts m (b + 1) rest r h2
      refine ⟨by omega, ?_, hz⟩
      simp only [List.length_cons]
      omega

/-- The rows handleCreate inserts have pairwise distinct ids. -/
theorem participantRows_ids_nodup (m : Nat) :
    ∀ (b : Nat) (names : List String),
      ((participantRows m b names).map fun p => p.id).Nodup
  | _, [] => List.nodup_nil
  | b, n :: rest => by
    simp only [participantRows, List.map_cons, List.nodup_cons]
    constructor
    · intro hmem
      rcases List.mem_map.mp hmem with ⟨r, hr, hid⟩
      have := (participantRows_mem_facts m (b + 1) rest r hr).1
      omega
    · exact participantRows_ids_nodup m (b + 1) rest

/-- Every successful core operation advances the bound and preserves the
invariant: distinct bounded ids, absent ids stay absent, and no
participant's aggregates decrease. -/
theorem applyOp_step (b : Nat) (db : DB) (op : Op)
    (hnd : pidsNodup db) (hb : pidsBelow db b)
    (hf : opFresh b op = true) :
    b ≤ opNext b op ∧ stepOK db (applyOp db op) b (opNext b op) := by
  cases op with
  | add nm meetingId newId =>
    have hble : b ≤ newId := Nat.le_of_ble_eq_true hf
    refine ⟨by simp [opNext]; omega, ?_⟩
    by_cases ht : strTrim nm = ""
    · exact stepOK_unchanged db _ b _ (by simp [applyOp, addParticipant, ht])
        hnd hb (by simp [opNext]; omega)
    · refine stepOK_append db _ b _
        [{ id := newId, meeting_id := meetingId, name := strTrim nm,
           total_speaking_time := 0, speaking_sessions := 0,
           is_currently_speaking := false }]
        (by simp [applyOp, addParticipant, ht]) ?_ ?_ (by simp)
        hnd hb (by simp [opNext]; omega)
      · intro r hr
        rcases List.mem_singleton.mp hr with rfl
        exact hble
      · intro r hr
        rcases List.mem_singleton.mp hr with rfl
        simp [opNext]
  | remove pid =>
    refine ⟨le_refl _, ?_⟩
    exact stepOK_filter db _ b _ _ rfl hnd hb (le_refl _)
  | start pid m now sid =>
    refine ⟨le_refl _, ?_⟩
    cases hfind : db.participants.find? (fun p => p.id == pid) with
    | none =>
      exact stepOK_unchanged db _ b _ (by simp [applyOp, hfind]) hnd hb
        (le_refl _)
    | some prt =>
      refine stepOK_map db _ b _
        ((fun q : Participant =>
            if q.id = prt.id then { q with is_currently_speaking := true }
            else q) ∘
          (fun q : Participant =>
            if q.meeting_id = m then
              { q with is_currently_speaking := false }
            else q))
        ?_ ?_ ?_ hnd hb (le_refl _)
      · simp [applyOp, hfind, startSpeaking, setSpeakingById,
          clearSpeakingInMeeting, List.map_map]
      · intro p
        by_cases h1 : p.meeting_id = m <;> by_cases h2 : p.id = prt.id <;>
          simp [Function.comp, h1, h2]
      · intro p _
        by_cases h1 : p.meeting_id = m <;> by_cases h2 : p.id = prt.id <;>
          simp [Function.comp, h1, h2]
  | stop pid dur now sid =>
    refine ⟨le_refl _, ?_⟩
    cases hfind : db.participants.find? (fun p => p.id == pid) with
    | none =>
      exact stepOK_unchanged db _ b _ (by simp [applyOp, hfind]) hnd hb
        (le_refl _)
    | some prt =>
      refine stepOK_map db _ b _
        (fun q : Participant =>
          if q.id = prt.id then
            { q with
                is_currently_speaking := false,
                total_speaking_time := prt.total_speaking_time + dur,
                speaking_sessions := prt.speaking_sessions + 1 }
          else q)
        ?_ ?_ ?_ hnd hb (le_refl _)
      · simp [applyOp, hfind, stopSpeaking]
      · intro p
        by_cases h : p.id = prt.id <;> simp [h]
      · intro p hp
        by_cases h : p.id = prt.id
        · have hpp : p = prt := eq_of_mem_of_id_eq db.participants hnd prt p
            (List.mem_of_find?_eq_some hfind) hp h
          subst hpp
          simp [h]
        · simp [h]
  | toggle pid m now sid =>
    refine ⟨le_refl _, ?_⟩
    cases hfind : db.participants.find? (fun p => p.id == pid) with
    | none =>
      exact stepOK_unchanged db _ b _
        (by simp [applyOp, toggleParticipantSpeaking, hfind]) hnd hb
        (le_refl _)
    | some prt =>
      cases hsp : prt.is_currently_speaking with
      | true =>
        refine stepOK_map db _ b _
          (fun q : Participant =>
            if q.id = pid then { q with is_currently_speaking := false }
            else q)
          ?_ ?_ ?_ hnd hb (le_refl _)
        · simp [applyOp, toggleParticipantSpeaking, hfind, hsp]
        · intro p
          by_cases h : p.id = pid <;> simp [h]
        · intro p _
          by_cases h : p.id = pid <;> simp [h]
      | false =>
        refine stepOK_map db _ b _
          ((fun q : Participant =>
              if q.id = pid then { q with is_currently_speaking := true }
              else q) ∘
            (fun q : Participant =>
              if q.meeting_id = m then
                { q with is_currently_speaking := false }
              else q))
          ?_ ?_ ?_ hnd hb (le_refl _)
        · simp [applyOp, toggleParticipantSpeaking, hfind, hsp,
            clearSpeakingInMeeting, List.map_map]
        · intro p
          by_cases h1 : p.meeting_id = m <;> by_cases h2 : p.id = pid <;>
            simp [Function.comp, h1, h2]
        · intro p _
          by_cases h1 : p.meeting_id = m <;> by_cases h2 : p.id = pid <;>
            simp [Function.comp, h1, h2]
  | create title names now mid uid basePid =>
    have hble : b ≤ basePid := Nat.le_of_ble_eq_true hf
    have hbn : b ≤ opNext b (.create title names now mid uid basePid) := by
      simp [opNext]
      omega
    refine ⟨hbn, ?_⟩
    by_cases ht : strTrim title = ""
    · exact stepOK_unchanged db _ b _
        (by simp [applyOp, handleCreate, ht]) hnd hb hbn
    · by_cases hl :
        (names.filter fun p => !(strTrim p == "")).length = 0
      · exact stepOK_unchanged db _ b _
          (by simp [applyOp, handleCreate, ht, hl]) hnd hb hbn
      · refine stepOK_append db _ b _
          (participantRows mid basePid
            (names.filter fun p => !(strTrim p == "")))
          (by simp [applyOp, handleCreate, ht, hl]) ?_ ?_
          (participantRows_ids_nodup mid basePid _) hnd hb hbn
        · intro r hr
          have := (participantRows_mem_facts mid basePid _ r hr).1
          omega
        · intro r hr
          have := (participantRows_mem_facts mid basePid _ r hr).2.1
          simp only [opNext]
          omega
  | ask q a anon m qid =>
    refine ⟨le_refl _, ?_⟩
    refine stepOK_unchanged db _ b _ ?_ hnd hb (le_refl _)
    simp only [applyOp, submitQuestion]
    split
    · rfl
    · split
      · rfl
      · rfl

/-- Over an admissible sequence of successful core operations, absent
participant ids stay absent and aggregates never decrease. -/
theorem applyOps_facts :
    ∀ (ops : List Op) (b : Nat) (db : DB),
      pidsNodup db → pidsBelow db b → admissible b db ops = true →
      (∀ x, x < b → (∀ p ∈ db.participants, p.id ≠ x) →
        ∀ p ∈ (applyOps db ops).participants, p.id ≠ x) ∧
      (∀ p ∈ db.participants, ∀ q ∈ (applyOps db ops).participants,
        q.id = p.id →
        p.total_speaking_time ≤ q.total_speaking_time ∧
        p.speaking_sessions ≤ q.speaking_sessions)
  | [], b, db, hnd, _, _ => by
    constructor
    · intro x _ h p hp
      exact h p hp
    · intro p hp q hq hid
      have hqp : q = p := eq_of_mem_of_id_eq db.participants hnd p q hp hq hid
      subst hqp
      exact ⟨le_refl _, le_refl _⟩
  | op :: rest, b, db, hnd, hb, hadm => by
    rw [show admissible b db (op :: rest) =
        (opFresh b op && admissible (opNext b op) (applyOp db op) rest)
      from rfl, Bool.and_eq_true] at hadm
    obtain ⟨hfr, hadm2⟩ := hadm
    obtain ⟨hle, snd, sbel, sabs, smono⟩ := applyOp_step b db op hnd hb hfr
    obtain ⟨iabs, imono⟩ :=
      applyOps_facts rest (opNext b op) (applyOp db op) snd sbel hadm2
    have hstep : applyOps db (op :: rest) = applyOps (applyOp db op) rest :=
      rfl
    constructor
    · intro x hx habs p hp
      rw [hstep] at hp
      exact iabs x (lt_of_lt_of_le hx hle) (sabs x hx habs) p hp
    · intro p hp q hq hid
      rw [hstep] at hq
      by_cases hmid : ∃ p1 ∈ (applyOp db op).participants, p1.id = p.id
      · obtain ⟨p1, hp1, hid1⟩ := hmid
        have l1 := smono p hp p1 hp1 hid1
        have l2 := imono p1 hp1 q hq (by rw [hid, ← hid1])
        exact ⟨le_trans l1.1 l2.1, le_trans l1.2 l2.2⟩
      · exfalso
        push_neg at hmid
        have hplt : p.id < b := hb p hp
        exact iabs p.id (lt_of_lt_of_le hplt hle) hmid q hq hid

/-- Claim C6: participant creation initialises both aggregates to zero,
and across any admissible sequence of successful core operations (ids
pairwise distinct and generated fresh, the normal non-error regime) no
participant's total_speaking_time or speaking_sessions ever decreases. -/
theorem aggregates_monotone :
    (∀ (nm : String) (meetingId newId : Nat) (db : DB),
      ∀ r ∈ (addParticipant nm meetingId newId db).participants,
        r ∈ db.participants ∨
          (r.total_speaking_time = 0 ∧ r.speaking_sessions = 0)) ∧
    (∀ (ops : List Op) (b : Nat) (db : DB),
      pidsNodup db → pidsBelow db b → admissible b db ops = true →
      ∀ p ∈ db.participants, ∀ q ∈ (applyOps db ops).participants,
        q.id = p.id →
        p.total_speaking_time ≤ q.total_speaking_time ∧
        p.speaking_sessions ≤ q.speaking_sessions) := by
  constructor
  · intro nm meetingId newId db r hr
    by_cases ht : strTrim nm = ""
    · simp only [addParticipant, if_pos ht] at hr
      exact Or.inl hr
    · simp only [addParticipant, if_neg ht] at hr
      rcases List.mem_append.mp hr with h | h
      · exact Or.inl h
      · rcases List.mem_singleton.mp h with rfl
        exact Or.inr ⟨rfl, rfl⟩
  · intro ops b db hnd hb hadm
    exact (applyOps_facts ops b db hnd hb hadm).2

/-- Claim C6 witness: running add-Carol, bob-starts, bob-stops (6 ticks),
remove-Carol over the sample datastore is admissible from bound 3, and
bob's aggregates do not decrease (they end at 9 seconds, 2 sessions). -/
theorem aggregates_monotone_witness :
    bob.total_speaking_time ≤ 9 ∧ bob.speaking_sessions ≤ 2 :=
  aggregates_monotone.2
    [Op.add "Carol" 1 3, Op.start 2 1 300 11,
      Op.stop 2 6 320 (some 11), Op.remove 3] 3 sampleDB
    (by unfold pidsNodup; decide) (by unfold pidsBelow; decide)
    (by decide) bob (by decide)
    { id := 2, meeting_id := 1, name := "Bob", total_speaking_time := 9,
      speaking_sessions := 2, is_currently_speaking := false }
    (by decide) (by decide)

end TalkTime
